import Mathlib

/-!
Verification development for the specification-management backend.

The Python sources under `src/backend/src` are shallowly embedded below:
database tables become lists of rows, SQLAlchemy sessions become explicit
state passing, and each repository method becomes a function returning
`Except RepoError` (a raised Python exception becomes an `error` result,
which the caller's rollback maps to the unchanged pre-call state).
Python `int` is modelled as `Int`, Python `str` as `String` (operating on
its character list), and SQL `ORDER BY` as a stable insertion sort.
-/

namespace Backend

/-- Errors raised by the repository layer: `valueError` models Python's
`ValueError`, `permissionError` models `PermissionError`. The payload is the
exact message string used in the source. -/
inductive RepoError where
  | valueError (msg : String)
  | permissionError (msg : String)
  deriving DecidableEq

deriving instance DecidableEq for Except

/-! Constants from `utils/constants.py`. -/

/-- Database-related constants (`DatabaseConstantsType` in `utils/constants.py`). -/
structure DatabaseConstantsType where
  MAX_ITEMS_PER_SPECIFICATION : Nat
  MAX_TITLE_LENGTH : Nat
  MAX_CONTENT_LENGTH : Nat
  MIN_ORDER_INDEX : Int
  MAX_ORDER_INDEX : Int
  MAX_SPECIFICATIONS_PER_PROJECT : Nat
  deriving DecidableEq

/-- Values of `DATABASE_CONSTANTS` in `utils/constants.py` (fields in declaration
order: max items per specification, max title length, max content length,
min order index, max order index, max specifications per project). -/
def DATABASE_CONSTANTS : DatabaseConstantsType :=
  ⟨10, 255, 1000, 0, 1000, 100⟩

/-- Error-message table (`ErrorMessagesType` in `utils/constants.py`). -/
structure ErrorMessagesType where
  INVALID_TOKEN : String
  UNAUTHORIZED_ACCESS : String
  RESOURCE_NOT_FOUND : String
  RATE_LIMIT_EXCEEDED : String
  MAX_ITEMS_REACHED : String
  INVALID_ORDER_INDEX : String
  PROJECT_ACCESS_DENIED : String
  INVALID_PAGE_SIZE : String
  INVALID_SORT_ORDER : String
  AUTH_LOCKOUT : String
  deriving DecidableEq

/-- Values of `ERROR_MESSAGES` in `utils/constants.py`, field for field. -/
def ERROR_MESSAGES : ErrorMessagesType :=
  ⟨"Invalid or expired authentication token",
   "Unauthorized access to resource",
   "Requested resource not found",
   "Rate limit exceeded. Please try again later",
   "Maximum number of items (10) reached for specification",
   "Order index must be between 0 and 1000",
   "Access denied to project",
   "Page size must be between 1 and 100",
   "Sort order must be either 'asc' or 'desc'",
   "Account temporarily locked due to multiple failed attempts"⟩

/-! Validators from `utils/validators.py`. -/

namespace Validators

/-- Module-level constant `MAX_ITEMS_PER_SPECIFICATION = 10` in `utils/validators.py`. -/
def MAX_ITEMS_PER_SPECIFICATION : Nat := 10

/-- Module-level constant `MAX_CONTENT_LENGTH = 1000` in `utils/validators.py`. -/
def MAX_CONTENT_LENGTH : Nat := 1000

/-- Module-level constant `MIN_CONTENT_LENGTH = 1` in `utils/validators.py`. -/
def MIN_CONTENT_LENGTH : Nat := 1

/-- Characters matched by `DANGEROUS_CHARS_PATTERN = re.compile(r'[<>&;]')`. -/
def DANGEROUS_CHARS : List Char := ['<', '>', '&', ';']

/-- Whether the string contains a character of `DANGEROUS_CHARS_PATTERN`
(`DANGEROUS_CHARS_PATTERN.search(...)` returning a match). -/
def containsDangerousChar (s : String) : Bool :=
  s.data.any (fun c => DANGEROUS_CHARS.contains c)

/-- Python `str.strip()`: drop leading and trailing whitespace. -/
def pyStrip (s : String) : String :=
  ⟨((s.data.dropWhile Char.isWhitespace).reverse.dropWhile Char.isWhitespace).reverse⟩

/-- Embeds `validate_content_length` from `utils/validators.py`: `None` is rejected,
the content is stripped, its length must lie in `[MIN_CONTENT_LENGTH, MAX_CONTENT_LENGTH]`,
and it must not contain a dangerous character. -/
def validate_content_length (content : Option String) : Bool :=
  match content with
  | none => false
  | some c0 =>
    let c := pyStrip c0
    if c.data.length < MIN_CONTENT_LENGTH ∨ MAX_CONTENT_LENGTH < c.data.length then false
    else if containsDangerousChar c then false
    else true

/-- Embeds `validate_order_index` from `utils/validators.py` on integer inputs:
`None` is rejected, and the index must satisfy `0 ≤ i ≤ 1000000`
(the literal bound `1000000` hard-coded at line 132 of the source). -/
def validate_order_index (order_index : Option Int) : Bool :=
  match order_index with
  | none => false
  | some i => if i < 0 ∨ (1000000 : Int) < i then false else true

/-- Embeds `validate_items_count` from `utils/validators.py` on integer inputs:
`None` is rejected, and the count must satisfy `0 ≤ c < MAX_ITEMS_PER_SPECIFICATION`. -/
def validate_items_count (current_count : Option Int) : Bool :=
  match current_count with
  | none => false
  | some c =>
    if c < 0 ∨ (MAX_ITEMS_PER_SPECIFICATION : Int) ≤ c then false else true

end Validators

/-! Item model (`db/models/items.py`) and its repository (`db/repositories/items.py`). -/

/-- Row of the `items` table: primary key `item_id`, foreign key `spec_id`,
`content`, and `order_index` (fields in that order). `created_at` is omitted:
no claim and no embedded operation reads it. -/
structure Item where
  item_id : Nat
  spec_id : Nat
  content : String
  order_index : Int
  deriving DecidableEq

/-- Replace the `order_index` column of a row, keeping every other column. -/
def setItemOrder (it : Item) (v : Int) : Item :=
  ⟨it.item_id, it.spec_id, it.content, v⟩

/-- Database state seen by the item repository: the `items` table rows in
insertion order, the primary keys of the `specifications` table (enough to
express parent existence), and the auto-increment counter for `item_id`. -/
structure ItemsState where
  items : List Item
  specs : List Nat
  next_item_id : Nat
  deriving DecidableEq

namespace Item

/-- Embeds `Item.validate_content` (the `@validates('content')` hook in
`db/models/items.py`): falsy or invalid content raises `ValueError`, valid
content is returned stripped. -/
def validate_content (content : Option String) : Except RepoError String :=
  match content with
  | none => .error (.valueError "Content must be between 1 and 1000 characters")
  | some c =>
    if c = "" ∨ Validators.validate_content_length (some c) = false then
      .error (.valueError "Content must be between 1 and 1000 characters")
    else .ok (Validators.pyStrip c)

/-- Embeds `Item.validate_order` (the `@validates('order_index')` hook in
`db/models/items.py`): an index rejected by `validate_order_index` raises
`ValueError(ERROR_MESSAGES['INVALID_ORDER_INDEX'])`. -/
def validate_order (order_index : Option Int) : Except RepoError Int :=
  match order_index with
  | none => .error (.valueError ERROR_MESSAGES.INVALID_ORDER_INDEX)
  | some i =>
    if Validators.validate_order_index (some i) = false then
      .error (.valueError ERROR_MESSAGES.INVALID_ORDER_INDEX)
    else .ok i

end Item

/-- The SQL filter `Item.spec_id == spec_id` over the `items` table. -/
def itemsOfSpec (s : ItemsState) (spec_id : Nat) : List Item :=
  s.items.filter (fun it => it.spec_id == spec_id)

/-- Comparison used by `order_by(Item.order_index)`. -/
def itemLE (a b : Item) : Prop := a.order_index ≤ b.order_index

instance : DecidableRel itemLE := fun a b => inferInstanceAs (Decidable (a.order_index ≤ b.order_index))

instance : IsTotal Item itemLE := ⟨fun a b => Int.le_total a.order_index b.order_index⟩

instance : IsTrans Item itemLE := ⟨fun _ _ _ h1 h2 => le_trans h1 h2⟩

/-- SQL `ORDER BY order_index` modelled as a stable sort. -/
def sortByOrderIndex (l : List Item) : List Item := List.insertionSort itemLE l

/-- Python's `x or d` applied to the result of a `MAX(...)` scalar query
(line 117 of `db/repositories/items.py`, `.scalar() or -1`): both `None` and
`0` are falsy in Python, so the default is taken not only when the table had
no matching row but also when the maximum equals `0`. -/
def pyOrInt (x : Option Int) (d : Int) : Int :=
  match x with
  | none => d
  | some v => if v = 0 then d else v

/-- SQL `MAX(...)` over a column: `NULL` (`none`) on an empty selection. -/
def sqlMaxInt (l : List Int) : Option Int :=
  match l with
  | [] => none
  | x :: xs => some (xs.foldl max x)

/-- The `order_index` column of a specification's items, in table order. -/
def specOrderIndices (s : ItemsState) (spec_id : Nat) : List Int :=
  (itemsOfSpec s spec_id).map Item.order_index

/-- Comparison for sorting plain index lists. -/
def intLE (a b : Int) : Prop := a ≤ b

instance : DecidableRel intLE := fun a b => inferInstanceAs (Decidable (a ≤ b))

/-- Sort a list of indices ascending. -/
def sortInts (l : List Int) : List Int := List.insertionSort intLE l

/-- The spec's dense-index invariant for one specification: the sorted
`order_index` values of its items are exactly `0, 1, …, count-1`. -/
def orderIndexInvariant (s : ItemsState) (spec_id : Nat) : Prop :=
  sortInts (specOrderIndices s spec_id) =
    (List.range (specOrderIndices s spec_id).length).map Int.ofNat

/-- Argument record for `ItemRepository.create_item`: the `item_data` dict with
keys `spec_id`, `content` and the optional `order_index` (a `none` models the
key being absent, which selects the append path). -/
structure ItemCreateData where
  spec_id : Nat
  content : String
  order_index : Option Int
  deriving DecidableEq

/-- One entry of the `order_updates` argument of `ItemRepository.update_order`:
the dict `{item_id, order_index}`. -/
structure OrderUpdateEntry where
  item_id : Nat
  order_index : Int
  deriving DecidableEq

namespace ItemRepository

/-- Embeds `ItemRepository.get_by_specification`: select the items of the
specification ordered by `order_index`. The source performs no existence
check on the specification and raises nothing besides re-raised database
errors, so the embedding is total. -/
def get_by_specification (s : ItemsState) (spec_id : Nat) : List Item :=
  sortByOrderIndex (itemsOfSpec s spec_id)

/-- Embeds `ItemRepository.create_item`: count check against
`MAX_ITEMS_PER_SPECIFICATION`, append-index computation via
`(MAX(order_index) scalar) or -1` plus one when `order_index` is absent,
then `BaseRepository.create`, which runs the `Item` model validators and the
`before_insert` count check, inserts the row with the next auto-increment id,
and commits. -/
def create_item (s : ItemsState) (item_data : ItemCreateData) :
    Except RepoError (Item × ItemsState) :=
  let current_count := (itemsOfSpec s item_data.spec_id).length
  if DATABASE_CONSTANTS.MAX_ITEMS_PER_SPECIFICATION ≤ current_count then
    .error (.valueError ERROR_MESSAGES.MAX_ITEMS_REACHED)
  else
    let oi0 : Int :=
      match item_data.order_index with
      | some v => v
      | none => pyOrInt (sqlMaxInt (specOrderIndices s item_data.spec_id)) (-1) + 1
    match Item.validate_content (some item_data.content) with
    | .error e => .error e
    | .ok content =>
      match Item.validate_order (some oi0) with
      | .error e => .error e
      | .ok oi =>
        if DATABASE_CONSTANTS.MAX_ITEMS_PER_SPECIFICATION ≤
            (itemsOfSpec s item_data.spec_id).length then
          .error (.valueError ERROR_MESSAGES.MAX_ITEMS_REACHED)
        else
          let item : Item := ⟨s.next_item_id, item_data.spec_id, content, oi⟩
          .ok (item, ⟨s.items ++ [item], s.specs, s.next_item_id + 1⟩)

/-- Transaction wrapper for `create_item`: a raised error rolls the nested
transaction back, so the committed database state is unchanged. -/
def create_item_commit (s : ItemsState) (item_data : ItemCreateData) : ItemsState :=
  match create_item s item_data with
  | .ok r => r.2
  | .error _ => s

/-- The bulk `UPDATE items SET order_index = ... WHERE item_id = ...` issued for
one entry of `order_updates` (the update filters on `item_id` alone). -/
def applyOrderUpdate (items : List Item) (u : OrderUpdateEntry) : List Item :=
  items.map (fun it => if it.item_id == u.item_id then setItemOrder it u.order_index else it)

/-- Embeds `ItemRepository.update_order`: the rows of the specification whose
ids occur in the update list are counted; if that count differs from the number
of updates, `ValueError("Invalid item IDs in order update request")` is raised;
otherwise each update is applied in order and the reloaded ordered item list is
returned together with the new state. No further validation is performed. -/
def update_order (s : ItemsState) (spec_id : Nat) (order_updates : List OrderUpdateEntry) :
    Except RepoError (List Item × ItemsState) :=
  let item_ids := order_updates.map OrderUpdateEntry.item_id
  let matched := s.items.filter (fun it => it.spec_id == spec_id && item_ids.contains it.item_id)
  if matched.length ≠ order_updates.length then
    .error (.valueError "Invalid item IDs in order update request")
  else
    let s' : ItemsState := ⟨order_updates.foldl applyOrderUpdate s.items, s.specs, s.next_item_id⟩
    .ok (get_by_specification s' spec_id, s')

/-- The bulk `UPDATE` issued after the row deletion: every row of the same
specification whose `order_index` exceeds the deleted row's index is
decremented by one; every other row is untouched. -/
def deleteShift (spec_id : Nat) (deleted_order : Int) (it : Item) : Item :=
  if it.spec_id = spec_id ∧ deleted_order < it.order_index then
    setItemOrder it (it.order_index - 1)
  else it

/-- Embeds `ItemRepository.delete_item`: the row is looked up by id
(`ValueError("Item not found")` if absent), removed (`super().delete` has no
definition in the sources; modelled from the spec: `delete_child` deletes the
row with the given primary key), every remaining row of the same specification
with a greater `order_index` is decremented by one, and `True` is returned. -/
def delete_item (s : ItemsState) (item_id : Nat) : Except RepoError (Bool × ItemsState) :=
  match s.items.find? (fun it => it.item_id == item_id) with
  | none => .error (.valueError "Item not found")
  | some item =>
    .ok (true,
      ⟨(s.items.filter (fun it => it.item_id ≠ item_id)).map
          (deleteShift item.spec_id item.order_index),
        s.specs, s.next_item_id⟩)

end ItemRepository

/-! Specification model (`db/models/specifications.py`) and repository
(`db/repositories/specifications.py`). -/

/-- Row of the `specifications` table (primary key, project foreign key,
content, order index). Timestamps are omitted: nothing embedded reads them. -/
structure Specification where
  spec_id : Nat
  project_id : Nat
  content : String
  order_index : Int
  deriving DecidableEq

/-- Replace the `order_index` column of a specification row. -/
def setSpecOrder (sp : Specification) (v : Int) : Specification :=
  ⟨sp.spec_id, sp.project_id, sp.content, v⟩

/-- Row of the `projects` table as consumed here (primary key, owner google id,
title). -/
structure ProjectRow where
  project_id : Nat
  owner_id : String
  title : String
  deriving DecidableEq

/-- Database state seen by the specification repository. -/
structure SpecsState where
  specifications : List Specification
  projects : List ProjectRow
  deriving DecidableEq

/-- The ownership join used by the specification repository: some row of the
`projects` table has this id and this owner. -/
def ownsProject (s : SpecsState) (project_id : Nat) (owner_id : String) : Bool :=
  s.projects.any (fun p => p.project_id == project_id && p.owner_id == owner_id)

namespace SpecificationRepository

/-- The ORM assignment `spec.reorder(new_order_index)` as seen in the flushed
table: the row with the moved primary key takes the new index. -/
def specMoveSet (spec_id : Nat) (new_order_index : Int) (t : Specification) : Specification :=
  if t.spec_id == spec_id then setSpecOrder t new_order_index else t

/-- The bulk `UPDATE` of the `new_order_index > old_order` branch: siblings of
the same project with index in `(old_order, new_order_index]`, excluding the
moved row, are decremented. -/
def specShiftDown (project_id : Nat) (old_order new_order_index : Int) (spec_id : Nat)
    (t : Specification) : Specification :=
  if t.project_id = project_id ∧ t.order_index ≤ new_order_index ∧
      old_order < t.order_index ∧ t.spec_id ≠ spec_id then
    setSpecOrder t (t.order_index - 1)
  else t

/-- The bulk `UPDATE` of the `else` branch: siblings of the same project with
index in `[new_order_index, old_order)`, excluding the moved row, are
incremented. -/
def specShiftUp (project_id : Nat) (old_order new_order_index : Int) (spec_id : Nat)
    (t : Specification) : Specification :=
  if t.project_id = project_id ∧ new_order_index ≤ t.order_index ∧
      t.order_index < old_order ∧ t.spec_id ≠ spec_id then
    setSpecOrder t (t.order_index + 1)
  else t

/-- Embeds `SpecificationRepository.update_order`: the specification is looked
up joined with its project filtered on the owner (`PermissionError` with
`UNAUTHORIZED_ACCESS` if absent); `Specification.reorder` validates the new
index via `validate_order_index` (raising the model's bounds message) and
assigns it; then the siblings in the affected half-open range are shifted by
one in a bulk update that excludes the moved row, and the transaction commits
returning `True`. -/
def update_order (s : SpecsState) (spec_id : Nat) (new_order_index : Int) (owner_id : String) :
    Except RepoError (Bool × SpecsState) :=
  match s.specifications.find? (fun sp =>
      sp.spec_id == spec_id && ownsProject s sp.project_id owner_id) with
  | none => .error (.permissionError ERROR_MESSAGES.UNAUTHORIZED_ACCESS)
  | some sp =>
    if Validators.validate_order_index (some new_order_index) = false then
      .error (.valueError "Order index must be between 0 and 1000")
    else
      let moved := s.specifications.map (specMoveSet spec_id new_order_index)
      let shifted :=
        if sp.order_index < new_order_index then
          moved.map (specShiftDown sp.project_id sp.order_index new_order_index spec_id)
        else
          moved.map (specShiftUp sp.project_id sp.order_index new_order_index spec_id)
      .ok (true, ⟨shifted, s.projects⟩)

end SpecificationRepository

/-! Project model (`db/models/projects.py`) and repository
(`db/repositories/projects.py`). -/

/-- Database state seen by the project repository. -/
structure ProjectsState where
  projects : List ProjectRow
  next_project_id : Nat
  deriving DecidableEq

/-- Argument record for `ProjectRepository.create_project`: the `project_data`
dict (only the `title` key is consumed by the embedded path). -/
structure ProjectCreateData where
  title : String
  deriving DecidableEq

/-- Modelled from the spec: `sanitize_string` is imported by the Project model
from `utils.validators` but is absent from the sources; the spec delegates
content length/charset sanitization, so it is modelled as whitespace trimming
plus removal of the dangerous characters `<>&;` matched elsewhere in
`utils/validators.py`. -/
def sanitize_string (s : String) : String :=
  ⟨(Validators.pyStrip s).data.filter (fun c => ¬ Validators.DANGEROUS_CHARS.contains c)⟩

namespace Project

/-- Embeds `Project.validate_title` (`db/models/projects.py`): empty titles,
titles sanitizing to empty, and titles longer than `MAX_TITLE_LENGTH` raise
`ValueError`; otherwise the sanitized title is returned. -/
def validate_title (title : String) : Except RepoError String :=
  if title = "" then .error (.valueError "Project title is required")
  else
    let sanitized_title := sanitize_string title
    if sanitized_title = "" then
      .error (.valueError "Project title cannot be empty after sanitization")
    else if DATABASE_CONSTANTS.MAX_TITLE_LENGTH < sanitized_title.data.length then
      .error (.valueError "Project title cannot exceed 255 characters")
    else .ok sanitized_title

end Project

namespace ProjectRepository

/-- Embeds `ProjectRepository.create_project`: the requesting owner's existing
projects are counted and compared against
`DATABASE_CONSTANTS['MAX_SPECIFICATIONS_PER_PROJECT']`, raising
`ValueError(ERROR_MESSAGES['MAX_ITEMS_REACHED'])` at or above the bound;
otherwise `Project.__init__` validates the owner id and title and the row is
inserted with the next auto-increment id. -/
def create_project (s : ProjectsState) (owner_id : String) (project_data : ProjectCreateData) :
    Except RepoError (ProjectRow × ProjectsState) :=
  if DATABASE_CONSTANTS.MAX_SPECIFICATIONS_PER_PROJECT ≤
      (s.projects.filter (fun p => p.owner_id == owner_id)).length then
    .error (.valueError ERROR_MESSAGES.MAX_ITEMS_REACHED)
  else if owner_id = "" then
    .error (.valueError "owner_id is required")
  else
    match Project.validate_title project_data.title with
    | .error e => .error e
    | .ok title =>
      let p : ProjectRow := ⟨s.next_project_id, owner_id, title⟩
      .ok (p, ⟨s.projects ++ [p], s.next_project_id + 1⟩)

end ProjectRepository

end Backend

namespace Backend

instance (s : ItemsState) (spec_id : Nat) : Decidable (orderIndexInvariant s spec_id) :=
  inferInstanceAs (Decidable (sortInts (specOrderIndices s spec_id) =
    (List.range (specOrderIndices s spec_id).length).map Int.ofNat))

/-- State reached after two committed appends into the empty specification 1. -/
def exTwoAppends : ItemsState := ⟨[⟨1, 1, "a", 0⟩, ⟨2, 1, "b", 0⟩], [1], 3⟩

/-- C1: for every specification, after any sequence of committed
create/delete/reorder operations, the item `order_index` values should be
exactly `{0, …, count-1}`. Counter-evaluation: two committed appends into an
empty specification produce the duplicate index list `[0, 0]`, because
`create_item` computes the append index with `scalar() or -1` and Python's
`or` treats a maximum of `0` as absent, so the invariant fails. -/
theorem c1_two_appends_violate_invariant :
    (ItemRepository.create_item ⟨[], [1], 1⟩ ⟨1, "a", none⟩).bind
        (fun r => ItemRepository.create_item r.2 ⟨1, "b", none⟩) =
      Except.ok (⟨2, 1, "b", 0⟩, exTwoAppends) ∧
    specOrderIndices exTwoAppends 1 = [0, 0] ∧
    ¬ orderIndexInvariant exTwoAppends 1 :=
  ⟨rfl, rfl, by decide⟩

/-- State with a single item of specification 1 sitting at `order_index` 0. -/
def exOneItemZero : ItemsState := ⟨[⟨1, 1, "x", 0⟩], [1], 2⟩

/-- C2: `create_item` without an explicit `order_index` should append at
`max(existing) + 1` (here `0 + 1 = 1`). Counter-evaluation: with one existing
item at index 0 the maximum is 0, yet the created item receives index 0,
because `scalar() or -1` treats the maximum 0 as falsy (the sibling
`create_specification` uses `coalesce(max, -1)` and does not have this flaw). -/
theorem c2_append_after_max_zero_assigns_zero :
    sqlMaxInt (specOrderIndices exOneItemZero 1) = some 0 ∧
    (ItemRepository.create_item exOneItemZero ⟨1, "b", none⟩).map (fun r => r.1.order_index) =
      Except.ok 0 :=
  ⟨rfl, rfl⟩

/-- State with two items of specification 1 at the dense indices 0 and 1. -/
def exTwoItems : ItemsState := ⟨[⟨1, 1, "a", 0⟩, ⟨2, 1, "b", 1⟩], [1], 3⟩

/-- C3 counterexample: the claim says `update_order` fails with a reorder error
unless the supplied indices are exactly the permutation `{0, …, count-1}`.
Here the single update `{item_id 1 ↦ index 5}` is not such a permutation
(5 ∉ {0, 1} and only one of two items is listed), yet the call succeeds and
assigns index 5, breaking the dense-index invariant. -/
theorem c3_counterexample_no_permutation_check :
    ItemRepository.update_order exTwoItems 1 [⟨1, 5⟩] =
      Except.ok ([⟨2, 1, "b", 1⟩, ⟨1, 1, "a", 5⟩],
        ⟨[⟨1, 1, "a", 5⟩, ⟨2, 1, "b", 1⟩], [1], 3⟩) ∧
    ¬ orderIndexInvariant ⟨[⟨1, 1, "a", 5⟩, ⟨2, 1, "b", 1⟩], [1], 3⟩ 1 :=
  ⟨rfl, by decide⟩

/-- State holding one item in specification 7 and one in specification 9. -/
def exTwoSpecsItems : ItemsState := ⟨[⟨1, 7, "a", 0⟩, ⟨2, 9, "b", 0⟩], [7, 9], 3⟩

/-- C7 counterexample: `delete_item` returns the constant boolean `True`, not
the parent id. Deleting items whose parents differ (specifications 7 and 9)
returns the same value `true` in both cases, so the caller cannot recover the
parent id from the result. -/
theorem c7_counterexample_returns_constant_true :
    (ItemRepository.delete_item exTwoSpecsItems 1).map Prod.fst = Except.ok true ∧
    (ItemRepository.delete_item exTwoSpecsItems 2).map Prod.fst = Except.ok true ∧
    (exTwoSpecsItems.items.find? (fun it => it.item_id == 1)).map Item.spec_id = some 7 ∧
    (exTwoSpecsItems.items.find? (fun it => it.item_id == 2)).map Item.spec_id = some 9 :=
  ⟨rfl, rfl, rfl, rfl⟩

/-- C7 (amended): `delete_item` applied to an existing item succeeds and
returns the boolean `true` (the parent id is not part of the result); applied
to an id that matches no item it fails with `ValueError("Item not found")`. -/
theorem c7_delete_item_returns_bool (s : ItemsState) (iid : Nat) :
    ((∃ it ∈ s.items, it.item_id = iid) →
      ∃ s', ItemRepository.delete_item s iid = Except.ok (true, s')) ∧
    ((∀ it ∈ s.items, it.item_id ≠ iid) →
      ItemRepository.delete_item s iid = Except.error (.valueError "Item not found")) := by
  constructor
  · rintro ⟨it, hmem, hid⟩
    have hfind : (s.items.find? (fun it => it.item_id == iid)).isSome :=
      List.find?_isSome.mpr ⟨it, hmem, by simp [hid]⟩
    unfold ItemRepository.delete_item
    cases hcase : s.items.find? (fun it => it.item_id == iid) with
    | none => rw [hcase] at hfind; simp at hfind
    | some item => exact ⟨_, rfl⟩
  · intro hnone
    unfold ItemRepository.delete_item
    cases hcase : s.items.find? (fun it => it.item_id == iid) with
    | none => rfl
    | some item =>
      have hp := List.find?_some hcase
      have hm := List.mem_of_find?_eq_some hcase
      simp at hp
      exact absurd hp (hnone item hm)

/-- Closed instantiation of `c7_delete_item_returns_bool` at concrete states. -/
theorem c7_delete_item_returns_bool_witness :
    (∃ s', ItemRepository.delete_item ⟨[⟨1, 7, "a", 0⟩], [7], 2⟩ 1 = Except.ok (true, s')) ∧
    ItemRepository.delete_item ⟨[⟨1, 7, "a", 0⟩], [7], 2⟩ 5 =
      Except.error (.valueError "Item not found") :=
  ⟨(c7_delete_item_returns_bool ⟨[⟨1, 7, "a", 0⟩], [7], 2⟩ 1).1 ⟨⟨1, 7, "a", 0⟩, by decide, rfl⟩,
   (c7_delete_item_returns_bool ⟨[⟨1, 7, "a", 0⟩], [7], 2⟩ 5).2 (by decide)⟩

/-- State whose specifications table has no specification 5. -/
def exNoSpecFive : ItemsState := ⟨[⟨1, 2, "a", 0⟩], [2], 2⟩

/-- C8 counterexample: specification 5 does not exist in the state, yet
`get_by_specification` returns the empty list normally instead of failing with
a not-found error — the source performs no parent-existence check and raises
nothing besides re-raised database errors. -/
theorem c8_counterexample_missing_parent_returns_empty :
    exNoSpecFive.specs.contains 5 = false ∧
    ItemRepository.get_by_specification exNoSpecFive 5 = [] :=
  ⟨rfl, rfl⟩

/-- C8 (amended): `get_by_specification` returns the specification's items
sorted by `order_index` ascending (a permutation of the rows whose `spec_id`
matches); when the referenced specification has no items — in particular when
it does not exist — it returns the empty list, and no error is ever raised. -/
theorem c8_get_by_specification_sorted (s : ItemsState) (spec_id : Nat) :
    (ItemRepository.get_by_specification s spec_id).Sorted itemLE ∧
    (ItemRepository.get_by_specification s spec_id).Perm (itemsOfSpec s spec_id) ∧
    ((∀ it ∈ s.items, it.spec_id ≠ spec_id) →
      ItemRepository.get_by_specification s spec_id = []) := by
  refine ⟨List.sorted_insertionSort itemLE _, List.perm_insertionSort itemLE _, ?_⟩
  intro h
  have hnil : itemsOfSpec s spec_id = [] := by
    apply List.filter_eq_nil_iff.mpr
    intro it hmem
    simp [h it hmem]
  simp [ItemRepository.get_by_specification, hnil, sortByOrderIndex]

/-- Closed instantiation of `c8_get_by_specification_sorted`. -/
theorem c8_get_by_specification_sorted_witness :
    (ItemRepository.get_by_specification exNoSpecFive 2).Sorted itemLE ∧
    ItemRepository.get_by_specification exNoSpecFive 5 = [] :=
  ⟨(c8_get_by_specification_sorted exNoSpecFive 2).1,
   (c8_get_by_specification_sorted exNoSpecFive 5).2.2 (by decide)⟩

/-- C9: `validate_order_index` accepts exactly the integers in `[0, 1000000]`,
although the declared `MAX_ORDER_INDEX` constant equals 1000 and the
`INVALID_ORDER_INDEX` message states the bound 1000; consequently the Item
model validator `Item.validate_order` accepts every index in `(1000, 1000000]`. -/
theorem c9_validate_order_index_range :
    (∀ n : Int, Validators.validate_order_index (some n) = true ↔ 0 ≤ n ∧ n ≤ 1000000) ∧
    DATABASE_CONSTANTS.MAX_ORDER_INDEX = 1000 ∧
    ERROR_MESSAGES.INVALID_ORDER_INDEX = "Order index must be between 0 and 1000" ∧
    (∀ n : Int, 1000 < n → n ≤ 1000000 → Item.validate_order (some n) = Except.ok n) := by
  refine ⟨?_, rfl, rfl, ?_⟩
  · intro n
    constructor
    · intro h
      by_contra hc
      simp [Validators.validate_order_index] at h
      omega
    · intro h
      simp [Validators.validate_order_index]
      omega
  · intro n h1 h2
    have hv : Validators.validate_order_index (some n) = true := by
      simp [Validators.validate_order_index]
      omega
    simp [Item.validate_order, hv]

/-- Closed instantiation of `c9_validate_order_index_range` at 5000, an index
above `MAX_ORDER_INDEX` that model validation nevertheless accepts. -/
theorem c9_validate_order_index_range_witness :
    Validators.validate_order_index (some 5000) = true ∧
    Item.validate_order (some 5000) = Except.ok 5000 :=
  ⟨(c9_validate_order_index_range.1 5000).mpr (by decide),
   c9_validate_order_index_range.2.2.2 5000 (by decide) (by decide)⟩

end Backend

namespace Backend

/-! Shared helper lemmas. -/

/-- A left fold of `max` over integers lands on one of the folded values. -/
theorem foldl_max_mem (xs : List Int) (x : Int) : xs.foldl max x ∈ x :: xs := by
  induction xs generalizing x with
  | nil => simp
  | cons y ys ih =>
    rw [List.foldl_cons]
    rcases List.mem_cons.mp (ih (max x y)) with h1 | h1
    · rw [h1]
      rcases max_choice x y with h2 | h2 <;> rw [h2]
      · exact List.mem_cons_self x _
      · exact List.mem_cons.mpr (Or.inr (List.mem_cons_self y ys))
    · exact List.mem_cons.mpr (Or.inr (List.mem_cons.mpr (Or.inr h1)))

/-- The SQL maximum, when defined, is one of the column values. -/
theorem sqlMaxInt_mem (l : List Int) (m : Int) (h : sqlMaxInt l = some m) : m ∈ l := by
  cases l with
  | nil => cases h
  | cons x xs =>
    simp only [sqlMaxInt, Option.some.injEq] at h
    exact h ▸ foldl_max_mem xs x

/-- Bounds for the append index computed by `create_item` when every existing
index lies in `[0, 999999]`. -/
theorem append_index_bounds (l : List Int) (h : ∀ i ∈ l, 0 ≤ i ∧ i ≤ 999999) :
    0 ≤ pyOrInt (sqlMaxInt l) (-1) + 1 ∧ pyOrInt (sqlMaxInt l) (-1) + 1 ≤ 1000000 := by
  cases hl : sqlMaxInt l with
  | none => simp [pyOrInt]
  | some m =>
    have hm := h m (sqlMaxInt_mem l m hl)
    by_cases hz : m = 0
    · simp [pyOrInt, hz]
    · simp [pyOrInt, hz]
      omega

/-- Content accepted by `validate_content_length` passes the Item model's
content validator and comes out stripped. -/
theorem validate_content_of_valid (c : String)
    (h : Validators.validate_content_length (some c) = true) :
    Item.validate_content (some c) = Except.ok (Validators.pyStrip c) := by
  have hne : ¬ (c = "" ∨ Validators.validate_content_length (some c) = false) := by
    rintro (rfl | hfalse)
    · exact absurd h (by decide)
    · rw [h] at hfalse; cases hfalse
  simp only [Item.validate_content, if_neg hne]

/-- An index within `[0, 1000000]` passes the Item model's order validator. -/
theorem validate_order_of_bounds (i : Int) (h0 : 0 ≤ i) (h1 : i ≤ 1000000) :
    Item.validate_order (some i) = Except.ok i := by
  have hv : Validators.validate_order_index (some i) = true := by
    simp only [Validators.validate_order_index]
    rw [if_neg (by omega)]
  simp [Item.validate_order, hv]

/-- A `find?` by a key that occurs exactly once returns the carrying element:
if `a` matches, every match shares `a`'s key, and keys are duplicate-free,
then the lookup returns `a` itself. -/
theorem find?_eq_some_unique {α : Type} (l : List α) (f : α → Nat) (p : α → Bool) (a : α)
    (hmem : a ∈ l) (hp : p a = true)
    (hkey : ∀ x ∈ l, p x = true → f x = f a)
    (hnodup : (l.map f).Nodup) : l.find? p = some a := by
  have hsome : (l.find? p).isSome := List.find?_isSome.mpr ⟨a, hmem, hp⟩
  cases hfind : l.find? p with
  | none => rw [hfind] at hsome; simp at hsome
  | some u =>
    have hu := List.mem_of_find?_eq_some hfind
    have hpu := List.find?_some hfind
    have := List.inj_on_of_nodup_map hnodup hu hmem (hkey u hu hpu)
    rw [this]

/-- Filtering away the one element carrying a key shortens the list by one. -/
theorem length_filter_ne_of_mem (l : List Item) (iid : Nat) (tgt : Item)
    (hmem : tgt ∈ l) (hid : tgt.item_id = iid)
    (hnodup : (l.map Item.item_id).Nodup) :
    (l.filter (fun it => it.item_id ≠ iid)).length + 1 = l.length := by
  induction l with
  | nil => cases hmem
  | cons x xs ih =>
    simp only [List.map_cons, List.nodup_cons] at hnodup
    obtain ⟨hx, hxs⟩ := hnodup
    rcases List.mem_cons.mp hmem with rfl | hmem'
    · rw [List.filter_cons_of_neg (by simp [hid])]
      have hself : xs.filter (fun it => it.item_id ≠ iid) = xs := by
        apply List.filter_eq_self.mpr
        intro u hu
        simp only [ne_eq, decide_eq_true_eq]
        intro hui
        apply hx
        rw [hid, ← hui]
        exact List.mem_map_of_mem Item.item_id hu
      rw [hself]
      simp
    · have hxid : x.item_id ≠ iid := by
        intro hxi
        apply hx
        rw [hxi, ← hid]
        exact List.mem_map_of_mem Item.item_id hmem'
      rw [List.filter_cons_of_pos (by simp [hxid])]
      have hlen := ih hmem' hxs
      simp only [List.length_cons]
      omega

end Backend

namespace Backend

/-- C10: `create_project` rejects the request with
`ValueError(ERROR_MESSAGES['MAX_ITEMS_REACHED'])` whenever the requesting
owner already has at least `MAX_SPECIFICATIONS_PER_PROJECT` (100) projects —
the per-project specification cap constant is applied as a per-owner
project-count cap — and otherwise (valid owner and title) inserts the project
for that owner. -/
theorem c10_create_project_owner_cap (s : ProjectsState) (owner : String)
    (d : ProjectCreateData) :
    (DATABASE_CONSTANTS.MAX_SPECIFICATIONS_PER_PROJECT ≤
        (s.projects.filter (fun p => p.owner_id == owner)).length →
      ProjectRepository.create_project s owner d =
        Except.error (.valueError ERROR_MESSAGES.MAX_ITEMS_REACHED)) ∧
    ((s.projects.filter (fun p => p.owner_id == owner)).length <
        DATABASE_CONSTANTS.MAX_SPECIFICATIONS_PER_PROJECT →
      owner ≠ "" →
      ∀ t : String, Project.validate_title d.title = Except.ok t →
        ProjectRepository.create_project s owner d =
          Except.ok (⟨s.next_project_id, owner, t⟩,
            ⟨s.projects ++ [⟨s.next_project_id, owner, t⟩], s.next_project_id + 1⟩)) := by
  constructor
  · intro h
    simp only [ProjectRepository.create_project, if_pos h]
  · intro h howner t ht
    simp only [ProjectRepository.create_project, if_neg (Nat.not_le.mpr h), if_neg howner, ht]

/-- State in which the owner `owner1` already has 100 projects. -/
def exHundredProjects : ProjectsState := ⟨List.replicate 100 ⟨1, "owner1", "t"⟩, 101⟩

/-- Closed instantiation of `c10_create_project_owner_cap`: at 100 existing
projects creation fails with the max-items message; with none it succeeds. -/
theorem c10_create_project_owner_cap_witness :
    ProjectRepository.create_project exHundredProjects "owner1" ⟨"My Project"⟩ =
      Except.error (.valueError ERROR_MESSAGES.MAX_ITEMS_REACHED) ∧
    ProjectRepository.create_project ⟨[], 1⟩ "owner1" ⟨"My Project"⟩ =
      Except.ok (⟨1, "owner1", "My Project"⟩, ⟨[⟨1, "owner1", "My Project"⟩], 2⟩) :=
  ⟨(c10_create_project_owner_cap exHundredProjects "owner1" ⟨"My Project"⟩).1 (by decide),
   (c10_create_project_owner_cap ⟨[], 1⟩ "owner1" ⟨"My Project"⟩).2 (by decide) (by decide)
     "My Project" (by decide)⟩

/-- C4: for a specification holding exactly `max_allowed - 1` items
(`max_allowed = MAX_ITEMS_PER_SPECIFICATION = 10`, with well-formed content
and existing indices), one more `create_item` succeeds and brings the count to
`max_allowed`; any further `create_item` on that specification fails with the
maximum-items error, and the committed state — the rolled-back transaction —
leaves the item set unchanged. `validate_items_count` agrees with the
boundary: it accepts `max_allowed - 1` and rejects `max_allowed`. -/
theorem c4_capacity_boundary (s : ItemsState) (spec_id : Nat) (content : String)
    (hcount : (itemsOfSpec s spec_id).length =
      DATABASE_CONSTANTS.MAX_ITEMS_PER_SPECIFICATION - 1)
    (hcontent : Validators.validate_content_length (some content) = true)
    (hindices : ∀ i ∈ specOrderIndices s spec_id, 0 ≤ i ∧ i ≤ 999999) :
    ∃ it s', ItemRepository.create_item s ⟨spec_id, content, none⟩ = Except.ok (it, s') ∧
      (itemsOfSpec s' spec_id).length = DATABASE_CONSTANTS.MAX_ITEMS_PER_SPECIFICATION ∧
      Validators.validate_items_count (some ((itemsOfSpec s spec_id).length : Int)) = true ∧
      Validators.validate_items_count (some ((itemsOfSpec s' spec_id).length : Int)) = false ∧
      ∀ d : ItemCreateData, d.spec_id = spec_id →
        ItemRepository.create_item s' d =
          Except.error (.valueError ERROR_MESSAGES.MAX_ITEMS_REACHED) ∧
        itemsOfSpec (ItemRepository.create_item_commit s' d) spec_id =
          itemsOfSpec s' spec_id := by
  have hnine : (itemsOfSpec s spec_id).length = 9 := hcount
  have hbound := append_index_bounds (specOrderIndices s spec_id) hindices
  have hcontent_ok := validate_content_of_valid content hcontent
  have horder := validate_order_of_bounds _ hbound.1 hbound.2
  refine ⟨⟨s.next_item_id, spec_id,
      Validators.pyStrip content,
      pyOrInt (sqlMaxInt (specOrderIndices s spec_id)) (-1) + 1⟩,
    ⟨s.items ++ [⟨s.next_item_id, spec_id, Validators.pyStrip content,
      pyOrInt (sqlMaxInt (specOrderIndices s spec_id)) (-1) + 1⟩], s.specs,
      s.next_item_id + 1⟩, ?_, ?_, ?_, ?_, ?_⟩
  · simp only [ItemRepository.create_item, hcontent_ok, horder]
    rw [if_neg (by rw [hnine]; decide), if_neg (by rw [hnine]; decide)]
  · simp only [itemsOfSpec, List.filter_append]
    rw [List.filter_cons_of_pos (by simp)]
    simp only [List.filter_nil, List.length_append, List.length_cons, List.length_nil]
    rw [show (s.items.filter (fun it => it.spec_id == spec_id)).length = 9 from hnine]
    decide
  · rw [hnine]; decide
  · have h10 : (itemsOfSpec ⟨s.items ++ [⟨s.next_item_id, spec_id,
        Validators.pyStrip content,
        pyOrInt (sqlMaxInt (specOrderIndices s spec_id)) (-1) + 1⟩], s.specs,
        s.next_item_id + 1⟩ spec_id).length = 10 := by
      simp only [itemsOfSpec, List.filter_append]
      rw [List.filter_cons_of_pos (by simp)]
      simp only [List.filter_nil, List.length_append, List.length_cons, List.length_nil]
      rw [show (s.items.filter (fun it => it.spec_id == spec_id)).length = 9 from hnine]
    rw [h10]; decide
  · intro d hd
    have h10 : (itemsOfSpec ⟨s.items ++ [⟨s.next_item_id, spec_id,
        Validators.pyStrip content,
        pyOrInt (sqlMaxInt (specOrderIndices s spec_id)) (-1) + 1⟩], s.specs,
        s.next_item_id + 1⟩ d.spec_id).length = 10 := by
      rw [hd]
      simp only [itemsOfSpec, List.filter_append]
      rw [List.filter_cons_of_pos (by simp)]
      simp only [List.filter_nil, List.length_append, List.length_cons, List.length_nil]
      rw [show (s.items.filter (fun it => it.spec_id == spec_id)).length = 9 from hnine]
    have herr : ItemRepository.create_item ⟨s.items ++ [⟨s.next_item_id, spec_id,
        Validators.pyStrip content,
        pyOrInt (sqlMaxInt (specOrderIndices s spec_id)) (-1) + 1⟩], s.specs,
        s.next_item_id + 1⟩ d =
        Except.error (.valueError ERROR_MESSAGES.MAX_ITEMS_REACHED) := by
      simp only [ItemRepository.create_item]
      rw [if_pos (by rw [h10]; decide)]
    refine ⟨herr, ?_⟩
    simp only [ItemRepository.create_item_commit, herr]

/-- Specification 1 at nine items, indices 0 through 8. -/
def exNineItems : ItemsState :=
  ⟨[⟨1, 1, "a", 0⟩, ⟨2, 1, "a", 1⟩, ⟨3, 1, "a", 2⟩, ⟨4, 1, "a", 3⟩, ⟨5, 1, "a", 4⟩,
    ⟨6, 1, "a", 5⟩, ⟨7, 1, "a", 6⟩, ⟨8, 1, "a", 7⟩, ⟨9, 1, "a", 8⟩], [1], 10⟩

/-- Closed instantiation of `c4_capacity_boundary` on nine concrete items. -/
theorem c4_capacity_boundary_witness :
    ∃ it s', ItemRepository.create_item exNineItems ⟨1, "j", none⟩ = Except.ok (it, s') ∧
      (itemsOfSpec s' 1).length = DATABASE_CONSTANTS.MAX_ITEMS_PER_SPECIFICATION := by
  obtain ⟨it, s', h1, h2, -⟩ :=
    c4_capacity_boundary exNineItems 1 "j" (by decide) (by decide) (by decide)
  exact ⟨it, s', h1, h2⟩

end Backend

namespace Backend

/-- The delete-shift keeps the row's primary key. -/
theorem deleteShift_item_id (σ : Nat) (p : Int) (it : Item) :
    (ItemRepository.deleteShift σ p it).item_id = it.item_id := by
  unfold ItemRepository.deleteShift
  split <;> rfl

/-- The delete-shift keeps the row's parent. -/
theorem deleteShift_spec_id (σ : Nat) (p : Int) (it : Item) :
    (ItemRepository.deleteShift σ p it).spec_id = it.spec_id := by
  unfold ItemRepository.deleteShift
  split <;> rfl

/-- Index produced by the delete-shift, as a conditional. -/
theorem deleteShift_order_index (σ : Nat) (p : Int) (it : Item) :
    (ItemRepository.deleteShift σ p it).order_index =
      (if it.spec_id = σ ∧ p < it.order_index then it.order_index - 1
       else it.order_index) := by
  unfold ItemRepository.deleteShift
  split <;> simp_all [setItemOrder]

/-- C5: deleting the item at index `P` removes exactly that item, shortens the
table by one, decrements by exactly one the `order_index` of every remaining
item of the same specification whose index exceeded `P`, leaves every other
index unchanged, and preserves the relative `order_index` order of the
surviving items of that specification. -/
theorem c5_delete_item_reindexes (s : ItemsState) (iid : Nat) (tgt : Item)
    (hmem : tgt ∈ s.items) (hid : tgt.item_id = iid)
    (hnodup : (s.items.map Item.item_id).Nodup) :
    ∃ s', ItemRepository.delete_item s iid = Except.ok (true, s') ∧
      (∀ j ∈ s'.items, j.item_id ≠ iid) ∧
      s'.items.length + 1 = s.items.length ∧
      (∀ j ∈ s.items, j.item_id ≠ iid →
        ∃ j' ∈ s'.items, j'.item_id = j.item_id ∧ j'.spec_id = j.spec_id ∧
          j'.order_index =
            (if j.spec_id = tgt.spec_id ∧ tgt.order_index < j.order_index then
              j.order_index - 1 else j.order_index)) ∧
      (∀ a ∈ s.items, ∀ b ∈ s.items, a.item_id ≠ iid → b.item_id ≠ iid →
        a.spec_id = tgt.spec_id → b.spec_id = tgt.spec_id →
        a.order_index ≠ tgt.order_index →
        a.order_index < b.order_index →
        ∃ a', a' ∈ s'.items ∧ a'.item_id = a.item_id ∧
          ∃ b', b' ∈ s'.items ∧ b'.item_id = b.item_id ∧
            a'.order_index < b'.order_index) := by
  have hfind : s.items.find? (fun it => it.item_id == iid) = some tgt := by
    apply find?_eq_some_unique s.items Item.item_id _ tgt hmem (by simp [hid])
      (fun x hx hp => by
        have : x.item_id = iid := by simpa using hp
        rw [this, hid])
      hnodup
  refine ⟨⟨(s.items.filter (fun it => it.item_id ≠ iid)).map
      (ItemRepository.deleteShift tgt.spec_id tgt.order_index), s.specs, s.next_item_id⟩,
    ?_, ?_, ?_, ?_, ?_⟩
  · simp only [ItemRepository.delete_item, hfind]
  · intro j hj
    simp only [List.mem_map, List.mem_filter] at hj
    obtain ⟨j0, ⟨hj0mem, hj0ne⟩, rfl⟩ := hj
    rw [deleteShift_item_id]
    simpa using hj0ne
  · rw [List.length_map]
    exact length_filter_ne_of_mem s.items iid tgt hmem hid hnodup
  · intro j hjmem hjne
    refine ⟨ItemRepository.deleteShift tgt.spec_id tgt.order_index j, ?_, ?_, ?_, ?_⟩
    · exact List.mem_map_of_mem _ (List.mem_filter.mpr ⟨hjmem, by simpa using hjne⟩)
    · exact deleteShift_item_id _ _ _
    · exact deleteShift_spec_id _ _ _
    · exact deleteShift_order_index _ _ _
  · intro a hamem b hbmem hane hbne haspec hbspec hanep hab
    refine ⟨ItemRepository.deleteShift tgt.spec_id tgt.order_index a,
      List.mem_map_of_mem _ (List.mem_filter.mpr ⟨hamem, by simpa using hane⟩),
      deleteShift_item_id _ _ _,
      ItemRepository.deleteShift tgt.spec_id tgt.order_index b,
      List.mem_map_of_mem _ (List.mem_filter.mpr ⟨hbmem, by simpa using hbne⟩),
      deleteShift_item_id _ _ _, ?_⟩
    rw [deleteShift_order_index, deleteShift_order_index]
    by_cases hb : b.spec_id = tgt.spec_id ∧ tgt.order_index < b.order_index
    · rw [if_pos hb]
      by_cases ha : a.spec_id = tgt.spec_id ∧ tgt.order_index < a.order_index
      · rw [if_pos ha]
        omega
      · rw [if_neg ha]
        have hale : ¬ tgt.order_index < a.order_index := fun hlt => ha ⟨haspec, hlt⟩
        omega
    · rw [if_neg hb]
      have hble : ¬ tgt.order_index < b.order_index := fun hlt => hb ⟨hbspec, hlt⟩
      by_cases ha : a.spec_id = tgt.spec_id ∧ tgt.order_index < a.order_index
      · rw [if_pos ha]
        omega
      · rw [if_neg ha]
        omega
  
/-- Specification 1 with three items at the dense indices 0, 1, 2. -/
def exThreeItems : ItemsState :=
  ⟨[⟨1, 1, "a", 0⟩, ⟨2, 1, "b", 1⟩, ⟨3, 1, "c", 2⟩], [1], 4⟩

/-- Closed instantiation of `c5_delete_item_reindexes`: deleting the item at
index 1 of 3 succeeds and removes exactly that item. -/
theorem c5_delete_item_reindexes_witness :
    ∃ s', ItemRepository.delete_item exThreeItems 2 = Except.ok (true, s') ∧
      (∀ j ∈ s'.items, j.item_id ≠ 2) := by
  obtain ⟨s', h1, h2, -⟩ :=
    c5_delete_item_reindexes exThreeItems 2 ⟨2, 1, "b", 1⟩ (by decide) rfl (by decide)
  exact ⟨s', h1, h2⟩

end Backend

namespace Backend

/-- Row keys survive `specMoveSet`. -/
theorem specMoveSet_spec_id (σ : Nat) (B : Int) (t : Specification) :
    (SpecificationRepository.specMoveSet σ B t).spec_id = t.spec_id := by
  unfold SpecificationRepository.specMoveSet
  split <;> rfl

/-- `specMoveSet` fixes rows other than the moved one. -/
theorem specMoveSet_other (σ : Nat) (B : Int) (t : Specification) (h : t.spec_id ≠ σ) :
    SpecificationRepository.specMoveSet σ B t = t := by
  unfold SpecificationRepository.specMoveSet
  rw [if_neg (by simpa using h)]

/-- `specMoveSet` assigns the new index to the moved row. -/
theorem specMoveSet_moved (σ : Nat) (B : Int) (t : Specification) (h : t.spec_id = σ) :
    SpecificationRepository.specMoveSet σ B t = setSpecOrder t B := by
  unfold SpecificationRepository.specMoveSet
  rw [if_pos (by simpa using h)]

/-- Row keys survive `specShiftDown`. -/
theorem specShiftDown_spec_id (proj : Nat) (oldo B : Int) (σ : Nat) (t : Specification) :
    (SpecificationRepository.specShiftDown proj oldo B σ t).spec_id = t.spec_id := by
  unfold SpecificationRepository.specShiftDown
  split <;> rfl

/-- Project keys survive `specShiftDown`. -/
theorem specShiftDown_project_id (proj : Nat) (oldo B : Int) (σ : Nat) (t : Specification) :
    (SpecificationRepository.specShiftDown proj oldo B σ t).project_id = t.project_id := by
  unfold SpecificationRepository.specShiftDown
  split <;> rfl

/-- Index produced by `specShiftDown`, as a conditional. -/
theorem specShiftDown_order_index (proj : Nat) (oldo B : Int) (σ : Nat) (t : Specification) :
    (SpecificationRepository.specShiftDown proj oldo B σ t).order_index =
      (if t.project_id = proj ∧ t.order_index ≤ B ∧ oldo < t.order_index ∧ t.spec_id ≠ σ then
        t.order_index - 1 else t.order_index) := by
  unfold SpecificationRepository.specShiftDown
  split <;> simp_all [setSpecOrder]

/-- Row keys survive `specShiftUp`. -/
theorem specShiftUp_spec_id (proj : Nat) (oldo B : Int) (σ : Nat) (t : Specification) :
    (SpecificationRepository.specShiftUp proj oldo B σ t).spec_id = t.spec_id := by
  unfold SpecificationRepository.specShiftUp
  split <;> rfl

/-- Project keys survive `specShiftUp`. -/
theorem specShiftUp_project_id (proj : Nat) (oldo B : Int) (σ : Nat) (t : Specification) :
    (SpecificationRepository.specShiftUp proj oldo B σ t).project_id = t.project_id := by
  unfold SpecificationRepository.specShiftUp
  split <;> rfl

/-- Index produced by `specShiftUp`, as a conditional. -/
theorem specShiftUp_order_index (proj : Nat) (oldo B : Int) (σ : Nat) (t : Specification) :
    (SpecificationRepository.specShiftUp proj oldo B σ t).order_index =
      (if t.project_id = proj ∧ B ≤ t.order_index ∧ t.order_index < oldo ∧ t.spec_id ≠ σ then
        t.order_index + 1 else t.order_index) := by
  unfold SpecificationRepository.specShiftUp
  split <;> simp_all [setSpecOrder]

end Backend

namespace Backend

/-- C6: moving one specification from its current index `A` to a valid target
index `B` within the same project: the call succeeds, the moved specification
takes index `B`; when `B > A` every sibling with index in `(A, B]` is
decremented by one, when `B < A` every sibling with index in `[B, A)` is
incremented by one, and every other sibling (and every other project's
specification) keeps its index. -/
theorem c6_specification_update_order_moves (s : SpecsState) (spec_id : Nat) (B : Int)
    (owner : String) (sp : Specification)
    (hmem : sp ∈ s.specifications) (hid : sp.spec_id = spec_id)
    (howner : ownsProject s sp.project_id owner = true)
    (hnodup : (s.specifications.map Specification.spec_id).Nodup)
    (hB0 : 0 ≤ B) (hB1 : B ≤ 1000000) :
    ∃ s', SpecificationRepository.update_order s spec_id B owner = Except.ok (true, s') ∧
      (∃ sp' ∈ s'.specifications, sp'.spec_id = spec_id ∧ sp'.order_index = B) ∧
      (∀ t ∈ s.specifications, t.spec_id ≠ spec_id →
        ∃ t' ∈ s'.specifications, t'.spec_id = t.spec_id ∧ t'.project_id = t.project_id ∧
          t'.order_index =
            (if t.project_id = sp.project_id ∧ t.order_index ≤ B ∧
                sp.order_index < t.order_index then t.order_index - 1
             else if t.project_id = sp.project_id ∧ B ≤ t.order_index ∧
                t.order_index < sp.order_index then t.order_index + 1
             else t.order_index)) := by
  have hfind : s.specifications.find? (fun t =>
      t.spec_id == spec_id && ownsProject s t.project_id owner) = some sp := by
    apply find?_eq_some_unique s.specifications Specification.spec_id _ sp hmem
      (by simp [hid, howner])
      (fun x hx hp => by
        have : x.spec_id = spec_id := by
          have := (Bool.and_eq_true _ _).mp hp
          simpa using this.1
        rw [this, hid])
      hnodup
  have hvB : ¬ (Validators.validate_order_index (some B) = false) := by
    have ht : Validators.validate_order_index (some B) = true := by
      simp only [Validators.validate_order_index]
      rw [if_neg (by omega)]
    simp [ht]
  by_cases hcmp : sp.order_index < B
  · refine ⟨⟨(s.specifications.map
        (SpecificationRepository.specMoveSet spec_id B)).map
        (SpecificationRepository.specShiftDown sp.project_id sp.order_index B spec_id),
        s.projects⟩, ?_, ?_, ?_⟩
    · simp only [SpecificationRepository.update_order, hfind, if_neg hvB, if_pos hcmp]
    · refine ⟨SpecificationRepository.specShiftDown sp.project_id sp.order_index B spec_id
        (SpecificationRepository.specMoveSet spec_id B sp),
        List.mem_map_of_mem _ (List.mem_map_of_mem _ hmem), ?_, ?_⟩
      · rw [specShiftDown_spec_id, specMoveSet_spec_id, hid]
      · rw [specMoveSet_moved spec_id B sp hid, specShiftDown_order_index]
        rw [if_neg (by
          rintro ⟨-, -, -, hne⟩
          exact hne (by simpa [setSpecOrder] using hid))]
        simp [setSpecOrder]
    · intro t htmem htne
      refine ⟨SpecificationRepository.specShiftDown sp.project_id sp.order_index B spec_id
        (SpecificationRepository.specMoveSet spec_id B t),
        List.mem_map_of_mem _ (List.mem_map_of_mem _ htmem), ?_, ?_, ?_⟩
      · rw [specMoveSet_other spec_id B t htne, specShiftDown_spec_id]
      · rw [specMoveSet_other spec_id B t htne, specShiftDown_project_id]
      · rw [specMoveSet_other spec_id B t htne, specShiftDown_order_index]
        by_cases hF1 : t.project_id = sp.project_id ∧ t.order_index ≤ B ∧
            sp.order_index < t.order_index
        · rw [if_pos ⟨hF1.1, hF1.2.1, hF1.2.2, htne⟩, if_pos hF1]
        · rw [if_neg (fun hc => hF1 ⟨hc.1, hc.2.1, hc.2.2.1⟩), if_neg hF1,
            if_neg (by rintro ⟨-, hle, hlt⟩; omega)]
  · refine ⟨⟨(s.specifications.map
        (SpecificationRepository.specMoveSet spec_id B)).map
        (SpecificationRepository.specShiftUp sp.project_id sp.order_index B spec_id),
        s.projects⟩, ?_, ?_, ?_⟩
    · simp only [SpecificationRepository.update_order, hfind, if_neg hvB, if_neg hcmp]
    · refine ⟨SpecificationRepository.specShiftUp sp.project_id sp.order_index B spec_id
        (SpecificationRepository.specMoveSet spec_id B sp),
        List.mem_map_of_mem _ (List.mem_map_of_mem _ hmem), ?_, ?_⟩
      · rw [specShiftUp_spec_id, specMoveSet_spec_id, hid]
      · rw [specMoveSet_moved spec_id B sp hid, specShiftUp_order_index]
        rw [if_neg (by
          rintro ⟨-, -, -, hne⟩
          exact hne (by simpa [setSpecOrder] using hid))]
        simp [setSpecOrder]
    · intro t htmem htne
      refine ⟨SpecificationRepository.specShiftUp sp.project_id sp.order_index B spec_id
        (SpecificationRepository.specMoveSet spec_id B t),
        List.mem_map_of_mem _ (List.mem_map_of_mem _ htmem), ?_, ?_, ?_⟩
      · rw [specMoveSet_other spec_id B t htne, specShiftUp_spec_id]
      · rw [specMoveSet_other spec_id B t htne, specShiftUp_project_id]
      · rw [specMoveSet_other spec_id B t htne, specShiftUp_order_index]
        by_cases hF2 : t.project_id = sp.project_id ∧ B ≤ t.order_index ∧
            t.order_index < sp.order_index
        · rw [if_pos ⟨hF2.1, hF2.2.1, hF2.2.2, htne⟩,
            if_neg (by rintro ⟨-, hle, hlt⟩; omega), if_pos hF2]
        · rw [if_neg (fun hc => hF2 ⟨hc.1, hc.2.1, hc.2.2.1⟩),
            if_neg (by rintro ⟨-, hle, hlt⟩; omega), if_neg hF2]

/-- Project 1, owned by `o`, with five specifications at indices 0 through 4. -/
def exFiveSpecs : SpecsState :=
  ⟨[⟨10, 1, "s0", 0⟩, ⟨11, 1, "s1", 1⟩, ⟨12, 1, "s2", 2⟩, ⟨13, 1, "s3", 3⟩, ⟨14, 1, "s4", 4⟩],
   [⟨1, "o", "proj"⟩]⟩

/-- Closed instantiation of `c6_specification_update_order_moves`: moving the
specification at index 4 to index 1 succeeds and the moved row takes index 1. -/
theorem c6_specification_update_order_moves_witness :
    ∃ s', SpecificationRepository.update_order exFiveSpecs 14 1 "o" = Except.ok (true, s') ∧
      (∃ sp' ∈ s'.specifications, sp'.spec_id = 14 ∧ sp'.order_index = 1) := by
  obtain ⟨s', h1, h2, -⟩ :=
    c6_specification_update_order_moves exFiveSpecs 14 1 "o" ⟨14, 1, "s4", 4⟩
      (by decide) rfl (by decide) (by decide) (by decide) (by decide)
  exact ⟨s', h1, h2⟩

end Backend

namespace Backend

/-- Per-row effect of the sequence of bulk updates issued by `update_order`:
each update whose `item_id` matches overwrites the row's `order_index`. -/
def applyUpdatesToItem (updates : List OrderUpdateEntry) (it : Item) : Item :=
  updates.foldl (fun acc u =>
    if acc.item_id == u.item_id then setItemOrder acc u.order_index else acc) it

/-- The fold of whole-table bulk updates equals the per-row fold mapped over
the table. -/
theorem foldl_applyOrderUpdate_eq_map (updates : List OrderUpdateEntry) (items : List Item) :
    updates.foldl ItemRepository.applyOrderUpdate items =
      items.map (applyUpdatesToItem updates) := by
  induction updates generalizing items with
  | nil =>
    have hfun : applyUpdatesToItem [] = fun it => it := rfl
    rw [List.foldl_nil, hfun]
    exact (List.map_id' items).symm
  | cons u us ih =>
    rw [List.foldl_cons, ih]
    simp only [ItemRepository.applyOrderUpdate, List.map_map]
    rfl

/-- The per-row fold keeps the primary key. -/
theorem applyUpdatesToItem_item_id (updates : List OrderUpdateEntry) (it : Item) :
    (applyUpdatesToItem updates it).item_id = it.item_id := by
  induction updates generalizing it with
  | nil => rfl
  | cons u us ih =>
    rw [show applyUpdatesToItem (u :: us) it = applyUpdatesToItem us
      (if it.item_id == u.item_id then setItemOrder it u.order_index else it) from rfl]
    rw [ih]
    split <;> rfl

/-- A row matched by none of the updates is untouched. -/
theorem applyUpdatesToItem_of_not_mem (updates : List OrderUpdateEntry) (it : Item)
    (h : it.item_id ∉ updates.map OrderUpdateEntry.item_id) :
    applyUpdatesToItem updates it = it := by
  induction updates with
  | nil => rfl
  | cons u us ih =>
    simp only [List.map_cons, List.mem_cons, not_or] at h
    rw [show applyUpdatesToItem (u :: us) it = applyUpdatesToItem us
      (if it.item_id == u.item_id then setItemOrder it u.order_index else it) from rfl]
    rw [if_neg (by simp [h.1])]
    exact ih h.2

/-- With duplicate-free update keys, the row matching an update ends at that
update's index. -/
theorem applyUpdatesToItem_order (updates : List OrderUpdateEntry) (u : OrderUpdateEntry)
    (it : Item) (hnodupU : (updates.map OrderUpdateEntry.item_id).Nodup)
    (hu : u ∈ updates) (hid : it.item_id = u.item_id) :
    (applyUpdatesToItem updates it).order_index = u.order_index := by
  induction updates generalizing it with
  | nil => cases hu
  | cons v vs ih =>
    simp only [List.map_cons, List.nodup_cons] at hnodupU
    obtain ⟨hv, hvs⟩ := hnodupU
    rw [show applyUpdatesToItem (v :: vs) it = applyUpdatesToItem vs
      (if it.item_id == v.item_id then setItemOrder it v.order_index else it) from rfl]
    rcases List.mem_cons.mp hu with rfl | hu'
    · rw [if_pos (by simp [hid])]
      rw [applyUpdatesToItem_of_not_mem vs _ (by simpa [setItemOrder, hid] using hv)]
      simp [setItemOrder]
    · have hne : ¬ (it.item_id = v.item_id) := by
        intro he
        apply hv
        rw [← he, hid]
        exact List.mem_map_of_mem OrderUpdateEntry.item_id hu'
      rw [if_neg (by simp [hne])]
      exact ih it hvs hu' hid

/-- When some supplied id matches no row satisfying `p`, the membership filter
of `update_order` selects strictly fewer rows than there are ids. -/
theorem length_filter_contains_lt (l : List Item) (p : Item → Bool) (ids : List Nat)
    (hnodupL : (l.map Item.item_id).Nodup) (id0 : Nat) (hid0 : id0 ∈ ids)
    (hmiss : ∀ it ∈ l, ¬(p it = true ∧ it.item_id = id0)) :
    (l.filter (fun it => p it && ids.contains it.item_id)).length < ids.length := by
  have hsubl : List.Sublist
      ((l.filter (fun it => p it && ids.contains it.item_id)).map Item.item_id)
      (l.map Item.item_id) :=
    (List.filter_sublist l).map _
  have hnodupF : ((l.filter (fun it => p it && ids.contains it.item_id)).map
      Item.item_id).Nodup := hsubl.nodup hnodupL
  have hnotin : id0 ∉ (l.filter (fun it => p it && ids.contains it.item_id)).map
      Item.item_id := by
    intro hin
    simp only [List.mem_map, List.mem_filter, Bool.and_eq_true] at hin
    obtain ⟨it, ⟨hmem, hp, -⟩, hide⟩ := hin
    exact hmiss it hmem ⟨hp, hide⟩
  have hsubset : (l.filter (fun it => p it && ids.contains it.item_id)).map Item.item_id ⊆
      ids.erase id0 := by
    intro x hx
    have hne : x ≠ id0 := fun he => hnotin (he ▸ hx)
    simp only [List.mem_map, List.mem_filter, Bool.and_eq_true] at hx
    obtain ⟨it, ⟨hmem, hp, hcont⟩, rfl⟩ := hx
    have hxid : it.item_id ∈ ids := by simpa using hcont
    exact (List.mem_erase_of_ne hne).mpr hxid
  have hle := (hnodupF.subperm hsubset).length_le
  rw [List.length_map] at hle
  have herase := List.length_erase_of_mem hid0
  have hpos : 0 < ids.length := List.length_pos_of_mem hid0
  omega

/-- When every supplied id matches a row satisfying `p` and both key lists are
duplicate-free, the membership filter selects exactly as many rows as ids. -/
theorem length_filter_contains_eq (l : List Item) (p : Item → Bool) (ids : List Nat)
    (hnodupL : (l.map Item.item_id).Nodup) (hnodupI : ids.Nodup)
    (hall : ∀ id ∈ ids, ∃ it ∈ l, p it = true ∧ it.item_id = id) :
    (l.filter (fun it => p it && ids.contains it.item_id)).length = ids.length := by
  have hsubl : List.Sublist
      ((l.filter (fun it => p it && ids.contains it.item_id)).map Item.item_id)
      (l.map Item.item_id) :=
    (List.filter_sublist l).map _
  have hnodupF : ((l.filter (fun it => p it && ids.contains it.item_id)).map
      Item.item_id).Nodup := hsubl.nodup hnodupL
  have hsub1 : (l.filter (fun it => p it && ids.contains it.item_id)).map Item.item_id ⊆
      ids := by
    intro x hx
    simp only [List.mem_map, List.mem_filter, Bool.and_eq_true] at hx
    obtain ⟨it, ⟨hmem, hp, hcont⟩, rfl⟩ := hx
    simpa using hcont
  have hsub2 : ids ⊆ (l.filter (fun it => p it && ids.contains it.item_id)).map
      Item.item_id := by
    intro id hidmem
    obtain ⟨it, hmem, hp, hide⟩ := hall id hidmem
    have hitf : it ∈ l.filter (fun it => p it && ids.contains it.item_id) :=
      List.mem_filter.mpr ⟨hmem, by
        rw [Bool.and_eq_true]
        exact ⟨hp, by simpa using hide ▸ hidmem⟩⟩
    exact hide ▸ List.mem_map_of_mem Item.item_id hitf
  have hperm := (hnodupF.subperm hsub1).antisymm (hnodupI.subperm hsub2)
  have := hperm.length_eq
  rw [List.length_map] at this
  exact this

end Backend

namespace Backend

/-- C3 (amended): with duplicate-free item and update keys, `update_order`
fails with `ValueError("Invalid item IDs in order update request")` when some
supplied `item_id` does not belong to an item of the given specification, and
succeeds when every supplied id does, in which case each listed item ends at
exactly the supplied `order_index` — with no validation whatsoever that the
supplied indices form the permutation `{0, …, count-1}`. -/
theorem c3_update_order_membership_only (s : ItemsState) (spec_id : Nat)
    (updates : List OrderUpdateEntry)
    (hnodupS : (s.items.map Item.item_id).Nodup)
    (hnodupU : (updates.map OrderUpdateEntry.item_id).Nodup) :
    ((∃ u ∈ updates, ∀ it ∈ s.items, ¬(it.spec_id = spec_id ∧ it.item_id = u.item_id)) →
      ItemRepository.update_order s spec_id updates =
        Except.error (.valueError "Invalid item IDs in order update request")) ∧
    ((∀ u ∈ updates, ∃ it ∈ s.items, it.spec_id = spec_id ∧ it.item_id = u.item_id) →
      ∃ r s', ItemRepository.update_order s spec_id updates = Except.ok (r, s') ∧
        ∀ u ∈ updates, ∃ it ∈ s'.items, it.item_id = u.item_id ∧
          it.order_index = u.order_index) := by
  constructor
  · rintro ⟨u0, hu0, hmiss⟩
    have hmiss' : ∀ it ∈ s.items,
        ¬((it.spec_id == spec_id) = true ∧ it.item_id = u0.item_id) := by
      intro it hmem hc
      exact hmiss it hmem ⟨by simpa using hc.1, hc.2⟩
    have hlt : (s.items.filter (fun it => it.spec_id == spec_id &&
        (updates.map OrderUpdateEntry.item_id).contains it.item_id)).length <
        (updates.map OrderUpdateEntry.item_id).length :=
      length_filter_contains_lt s.items (fun it => it.spec_id == spec_id)
        (updates.map OrderUpdateEntry.item_id) hnodupS u0.item_id
        (List.mem_map_of_mem _ hu0) hmiss'
    have hlm : (updates.map OrderUpdateEntry.item_id).length = updates.length :=
      List.length_map _ _
    simp only [ItemRepository.update_order]
    rw [if_pos (by omega)]
  · intro hall
    have hall' : ∀ id ∈ updates.map OrderUpdateEntry.item_id,
        ∃ it ∈ s.items, (it.spec_id == spec_id) = true ∧ it.item_id = id := by
      intro id hid
      obtain ⟨u, hu, huid⟩ := List.mem_map.mp hid
      obtain ⟨it, hmem, hspec, hide⟩ := hall u hu
      exact ⟨it, hmem, by simpa using hspec, by rw [hide, huid]⟩
    have heq := length_filter_contains_eq s.items (fun it => it.spec_id == spec_id)
      (updates.map OrderUpdateEntry.item_id) hnodupS hnodupU hall'
    have hlen : (s.items.filter (fun it => it.spec_id == spec_id &&
        (updates.map OrderUpdateEntry.item_id).contains it.item_id)).length =
        updates.length :=
      heq.trans (List.length_map _ _)
    refine ⟨ItemRepository.get_by_specification
        ⟨updates.foldl ItemRepository.applyOrderUpdate s.items, s.specs, s.next_item_id⟩
        spec_id,
      ⟨updates.foldl ItemRepository.applyOrderUpdate s.items, s.specs, s.next_item_id⟩,
      ?_, ?_⟩
    · simp only [ItemRepository.update_order]
      rw [if_neg (fun hc => hc hlen)]
    · intro u hu
      obtain ⟨it, hmem, hspec, hide⟩ := hall u hu
      refine ⟨applyUpdatesToItem updates it, ?_, ?_, ?_⟩
      · show applyUpdatesToItem updates it ∈
          updates.foldl ItemRepository.applyOrderUpdate s.items
        rw [foldl_applyOrderUpdate_eq_map]
        exact List.mem_map_of_mem _ hmem
      · rw [applyUpdatesToItem_item_id, hide]
      · exact applyUpdatesToItem_order updates u it hnodupU hu hide

/-- Closed instantiation of `c3_update_order_membership_only`: an id foreign to
the specification is rejected; a genuine permutation of the two items is
applied with the supplied indices. -/
theorem c3_update_order_membership_only_witness :
    ItemRepository.update_order exTwoItems 1 [⟨99, 0⟩] =
      Except.error (.valueError "Invalid item IDs in order update request") ∧
    (∃ r s', ItemRepository.update_order exTwoItems 1 [⟨1, 1⟩, ⟨2, 0⟩] = Except.ok (r, s') ∧
      ∀ u ∈ [(⟨1, 1⟩ : OrderUpdateEntry), ⟨2, 0⟩], ∃ it ∈ s'.items,
        it.item_id = u.item_id ∧ it.order_index = u.order_index) :=
  ⟨(c3_update_order_membership_only exTwoItems 1 [⟨99, 0⟩] (by decide) (by decide)).1
      ⟨⟨99, 0⟩, by decide, by decide⟩,
   (c3_update_order_membership_only exTwoItems 1 [⟨1, 1⟩, ⟨2, 0⟩] (by decide) (by decide)).2
      (by decide)⟩

end Backend
